import Mathlib

/-!
Verification of the massacre-mission aggregation core of ED_Mission_Stacker.

The Python source (`mission_stack.py`, `kill_ratio.py`, `events.py`) is shallowly
embedded: Python dicts become insertion-ordered association lists, ints become `Int`,
floats become `ℚ`, and operations that Python guards against `ZeroDivisionError`
are embedded in `Except String` with a division that fails on a zero divisor.
Methods that mutate `self` and return a bool are embedded as functions returning
`Option` of the new state (`some` ↔ `True`) or `Bool ×` the new state.
-/

/-- The substring test `needle in hay` on Python strings, over character lists.
An empty needle is contained in every string, as in Python. -/
def listContainsSub (hay needle : List Char) : Bool :=
  match hay with
  | [] => needle.isEmpty
  | _ :: t => needle.isPrefixOf hay || listContainsSub t needle

/-- `needle in hay` for strings. -/
def strContainsSub (hay needle : String) : Bool :=
  listContainsSub hay.toList needle.toList

/-- `s.endswith(c)` for a single-character suffix, over the underlying characters. -/
def strEndsWithChar (s : String) (c : Char) : Bool :=
  s.toList.getLast? == some c

/-- `s[:-1]`: drop the final character. -/
def strDropLast (s : String) : String :=
  String.mk s.toList.dropLast

/-- An event record as consumed by `MissionStack.process_event`: the recognized
fields of the Python dict, `none` when the key is absent.  `dict.get(k, d)`
becomes `Option.getD`. -/
structure EventData where
  event : Option String := none
  Name : Option String := none
  LocalisedName : Option String := none
  Faction : Option String := none
  TargetFaction : Option String := none
  KillCount : Option Int := none
  Reward : Option Int := none
  MissionID : Option Int := none
  Expiry : Option String := none
  Wing : Option Bool := none
  DestinationSystem : Option String := none
  DestinationStation : Option String := none
  timestamp : Option String := none
  deriving Repr, DecidableEq

/-- `MissionData` from `mission_stack.py`: one massacre mission.  The
`expiry_datetime` field is presentation-only (a parsed copy of `expiry`) and is
not modelled; the in-place `Z`-stripping of `expiry` done by `__init__` is. -/
structure MissionData where
  mission_id : Int
  name : String
  localised_name : String
  faction : String
  target_faction : String
  initial_kill_count : Int
  current_kill_count : Int
  reward : Int
  expiry : String
  wing : Bool
  destination_system : String
  destination_station : String
  timestamp : String
  deriving Repr, DecidableEq

/-- `MissionData.__init__(mission_data)`: every field is read with
`mission_data.get(key, default)`; `initial_kill_count` and `current_kill_count`
are both read from `KillCount`.  The `expiry` string has a trailing `Z`
stripped, exactly as the source does before attempting to parse it. -/
def MissionData.ofEvent (e : EventData) : MissionData :=
  let expiry0 := e.Expiry.getD ""
  { mission_id := e.MissionID.getD 0
    name := e.Name.getD ""
    localised_name := e.LocalisedName.getD ""
    faction := e.Faction.getD ""
    target_faction := e.TargetFaction.getD ""
    initial_kill_count := e.KillCount.getD 0
    current_kill_count := e.KillCount.getD 0
    reward := e.Reward.getD 0
    expiry := if expiry0 ≠ "" ∧ strEndsWithChar expiry0 'Z' = true then strDropLast expiry0 else expiry0
    wing := e.Wing.getD false
    destination_system := e.DestinationSystem.getD ""
    destination_station := e.DestinationStation.getD ""
    timestamp := e.timestamp.getD "" }

/-- `MissionData.update_kill_count(new_kill_count)`. -/
def MissionData.update_kill_count (m : MissionData) (new_kill_count : Int) : MissionData :=
  { m with current_kill_count := new_kill_count }

/-- `FactionMissions` from `mission_stack.py`: the per-issuing-faction ledger.
`missions` is the Python dict keyed by `localised_name`, kept in insertion
order as an association list. -/
structure FactionMissions where
  faction_name : String
  missions : List (String × MissionData)
  total_initial_kills : Int
  total_current_kills : Int
  total_reward : Int
  deriving Repr, DecidableEq

/-- `FactionMissions.__init__(faction_name)`. -/
def FactionMissions.init (faction_name : String) : FactionMissions :=
  { faction_name := faction_name
    missions := []
    total_initial_kills := 0
    total_current_kills := 0
    total_reward := 0 }

/-- `key in dict` for an association list. -/
def containsKey (l : List (String × MissionData)) (k : String) : Bool :=
  l.any (fun km => km.1 == k)

/-- Mutating `self.missions[key].update_kill_count(c)`: replace the
`current_kill_count` of the (unique) entry stored under `key`. -/
def updateKillAt (l : List (String × MissionData)) (key : String) (c : Int) :
    List (String × MissionData) :=
  match l with
  | [] => []
  | (k, m) :: rest =>
      if k = key then (k, m.update_kill_count c) :: rest
      else (k, m) :: updateKillAt rest key c

/-- `FactionMissions.add_mission(mission_data)`: dedup key is `localised_name`;
an existing key only has its `current_kill_count` replaced (aggregates are not
touched on that path, exactly as in the source); a new key is appended and all
three aggregates grow by the record's fields. -/
def FactionMissions.add_mission (fm : FactionMissions) (md : MissionData) : FactionMissions :=
  let key := md.localised_name
  if containsKey fm.missions key then
    { fm with missions := updateKillAt fm.missions key md.current_kill_count }
  else
    { fm with
      missions := fm.missions ++ [(key, md)]
      total_initial_kills := fm.total_initial_kills + md.initial_kill_count
      total_current_kills := fm.total_current_kills + md.current_kill_count
      total_reward := fm.total_reward + md.reward }

/-- The loop body of `FactionMissions.update_mission_kills`: find the first
record with the given `mission_id`, set its count, report the old count. -/
def updateKillsRec (l : List (String × MissionData)) (mission_id new_kill_count : Int) :
    Option (Int × List (String × MissionData)) :=
  match l with
  | [] => none
  | (k, m) :: rest =>
      if m.mission_id = mission_id then
        some (m.current_kill_count, (k, m.update_kill_count new_kill_count) :: rest)
      else
        match updateKillsRec rest mission_id new_kill_count with
        | some (old, rest') => some (old, (k, m) :: rest')
        | none => none

/-- `FactionMissions.update_mission_kills(mission_id, new_kill_count)`:
`some` of the new state when a record matched (the Python `True` return),
`none` otherwise. -/
def FactionMissions.update_mission_kills (fm : FactionMissions)
    (mission_id new_kill_count : Int) : Option FactionMissions :=
  match updateKillsRec fm.missions mission_id new_kill_count with
  | none => none
  | some (old, ms') =>
      some { fm with
        missions := ms'
        total_current_kills := fm.total_current_kills + (new_kill_count - old) }

/-- The loop body of `FactionMissions.remove_mission`: delete the first record
whose `mission_id` matches and return it together with the remaining list. -/
def removeMissionRec (l : List (String × MissionData)) (mission_id : Int) :
    Option (MissionData × List (String × MissionData)) :=
  match l with
  | [] => none
  | (k, m) :: rest =>
      if m.mission_id = mission_id then some (m, rest)
      else
        match removeMissionRec rest mission_id with
        | some (r, rest') => some (r, (k, m) :: rest')
        | none => none

/-- `FactionMissions.remove_mission(mission_id)`: `some` of the new state when a
record matched (the Python `True` return), `none` otherwise.  The matched
record's three fields are subtracted from the aggregates. -/
def FactionMissions.remove_mission (fm : FactionMissions) (mission_id : Int) :
    Option FactionMissions :=
  match removeMissionRec fm.missions mission_id with
  | none => none
  | some (m, ms') =>
      some { fm with
        missions := ms'
        total_initial_kills := fm.total_initial_kills - m.initial_kill_count
        total_current_kills := fm.total_current_kills - m.current_kill_count
        total_reward := fm.total_reward - m.reward }

/-- The guarded division the sources perform on Python floats, embedded over ℚ:
dividing by zero raises `ZeroDivisionError`, every other division succeeds. -/
def pydiv (a b : ℚ) : Except String ℚ :=
  if b = 0 then Except.error "ZeroDivisionError" else Except.ok (a / b)

/-- `FactionMissions.get_progress_percentage()` with the division embedded as a
fallible operation: `0.0` when `total_initial_kills == 0`, otherwise
`total_current_kills / total_initial_kills * 100`. -/
def FactionMissions.get_progress_percentageE (fm : FactionMissions) : Except String ℚ :=
  if fm.total_initial_kills = 0 then Except.ok 0
  else (pydiv (fm.total_current_kills : ℚ) (fm.total_initial_kills : ℚ)).map (· * 100)

/-- Python `max(iterable)` on a list of ints: `ValueError` on an empty list. -/
def pymax (l : List Int) : Except String Int :=
  match l with
  | [] => Except.error "ValueError"
  | x :: xs => Except.ok (xs.foldl max x)

/-- The stable descending insertion used to model Python's
`sorted(missions, key=current_kill_count, reverse=True)`: an element is placed
before the first element with a key not larger than its own, so earlier
elements stay first among equal keys. -/
def insertByDesc (key : MissionData → Int) (x : MissionData) :
    List MissionData → List MissionData
  | [] => [x]
  | y :: ys => if key y ≤ key x then x :: y :: ys else y :: insertByDesc key x ys

/-- Stable descending sort by a key, modelling Python's `sorted(..., reverse=True)`. -/
def sortByDesc (key : MissionData → Int) (l : List MissionData) : List MissionData :=
  l.foldr (insertByDesc key) []

/-- `KillRatioCalculator._calculate_faction_remaining_kills(faction_missions)` on
the `FactionMissions`-object branch: sort the owned records by remaining kills,
descending, then total their `current_kill_count` values. -/
def calculateFactionRemainingKills (fm : FactionMissions) : Int :=
  let sorted_missions := sortByDesc (fun m => m.current_kill_count) (fm.missions.map (·.2))
  (sorted_missions.map (·.current_kill_count)).sum

/-- `KillRatioCalculator._compute_kill_ratio(faction_remaining_kills)` over the
dict's values in insertion order.  Divisions are the fallible `pydiv`; the
source's `max(...)` is the fallible `pymax`; the final result is clamped into
`[0, 1]` by `max(0.0, min(1.0, ratio))`. -/
def computeKillRatio (vals : List Int) : Except String ℚ :=
  if vals.length = 0 then Except.ok 0
  else if vals.length = 1 then Except.ok 1
  else if vals.sum = 0 then Except.ok 0
  else
    (pymax vals).bind fun max_remaining =>
    (pydiv (vals.sum : ℚ) (vals.length : ℚ)).bind fun avg_remaining =>
    (if 0 < max_remaining then pydiv avg_remaining (max_remaining : ℚ)
     else Except.ok 1).bind fun distribution_factor =>
    (if 0 < vals.sum then pydiv (max_remaining : ℚ) (vals.sum : ℚ)
     else Except.ok 0).bind fun base_ratio =>
    Except.ok (max 0 (min 1 (base_ratio * distribution_factor)))

/-- `KillRatioCalculator._calculate_target_faction_ratio(target, factions_data)`:
`1.0` straight away for a single issuing faction, otherwise the remaining kills
of each issuing faction (in insertion order) are fed to `computeKillRatio`. -/
def calculateTargetFactionRatio (factions_data : List (String × FactionMissions)) :
    Except String ℚ :=
  if factions_data.length = 1 then Except.ok 1
  else computeKillRatio (factions_data.map (fun kv => calculateFactionRemainingKills kv.2))

/-- `KillRatioCalculator.calculate_ratios(mission_stack)`: one ratio per target
faction, in registry order; a raised exception aborts the whole loop. -/
def calculateRatios (reg : List (String × List (String × FactionMissions))) :
    Except String (List (String × ℚ)) :=
  match reg with
  | [] => Except.ok []
  | (t, fd) :: rest =>
      (calculateTargetFactionRatio fd).bind fun r =>
      (calculateRatios rest).bind fun rs =>
      Except.ok ((t, r) :: rs)

/-- One target-faction bucket of the registry: `issuing_faction → FactionMissions`,
in insertion order. -/
abbrev Bucket := List (String × FactionMissions)

/-- The `MissionStack.missions` registry:
`target_faction → issuing_faction → FactionMissions`, in insertion order. -/
abbrev Registry := List (String × Bucket)

/-- The Python idiom `if k not in d: d[k] = dflt` followed by an in-place
mutation of `d[k]`: update the entry stored under `k`, appending a fresh
`dflt` entry first when the key is absent. -/
def upsert {α : Type} (l : List (String × α)) (k : String) (dflt : α) (upd : α → α) :
    List (String × α) :=
  match l with
  | [] => [(k, upd dflt)]
  | (k', v) :: rest =>
      if k' = k then (k', upd v) :: rest else (k', v) :: upsert rest k dflt upd

/-- `MissionStack._handle_mission_accepted(event_data)`: ignore events whose
`Name` does not contain the `Mission_Massacre` marker; otherwise build the
`MissionData`, ensure the target-faction bucket and the issuing-faction ledger
exist, and add the mission to that ledger. -/
def handleMissionAccepted (e : EventData) (reg : Registry) : Bool × Registry :=
  let name := e.Name.getD ""
  if strContainsSub name "Mission_Massacre" = false then (false, reg)
  else
    let md := MissionData.ofEvent e
    (true, upsert reg md.target_faction []
      (fun bucket => upsert bucket md.faction (FactionMissions.init md.faction)
        (fun fm => fm.add_mission md)))

/-- The inner loop of `MissionStack._remove_mission_by_id`: try each issuing
faction's ledger in order; on the first successful removal, drop the ledger
when it has become empty. -/
def removeFromBucket (b : Bucket) (mission_id : Int) : Option Bucket :=
  match b with
  | [] => none
  | (f, fm) :: rest =>
      match fm.remove_mission mission_id with
      | some fm' => some (if fm'.missions.isEmpty then rest else (f, fm') :: rest)
      | none =>
          match removeFromBucket rest mission_id with
          | some rest' => some ((f, fm) :: rest')
          | none => none

/-- `MissionStack._remove_mission_by_id(mission_id, reason)`: scan the buckets
in order; on the first successful removal, drop the bucket when it has become
empty.  `some` of the new registry corresponds to the Python `True` return. -/
def removeMissionById (reg : Registry) (mission_id : Int) : Option Registry :=
  match reg with
  | [] => none
  | (t, b) :: rest =>
      match removeFromBucket b mission_id with
      | some b' => some (if b'.isEmpty then rest else (t, b') :: rest)
      | none =>
          match removeMissionById rest mission_id with
          | some rest' => some ((t, b) :: rest')
          | none => none

/-- The searched-for location of a mission id inside one bucket: the first
ledger holding a record with that id, together with that first record. -/
def findInBucket (b : Bucket) (mission_id : Int) : Option (String × MissionData) :=
  match b with
  | [] => none
  | (f, fm) :: rest =>
      match removeMissionRec fm.missions mission_id with
      | some (m, _) => some (f, m)
      | none => findInBucket rest mission_id

/-- The searched-for location of a mission id in the registry: the first bucket
(and within it the first ledger, and within that the first record) matching the
id, in registry iteration order — exactly the order `_remove_mission_by_id`
scans. -/
def findInRegistry (reg : Registry) (mission_id : Int) :
    Option (String × String × MissionData) :=
  match reg with
  | [] => none
  | (t, b) :: rest =>
      match findInBucket b mission_id with
      | some (f, m) => some (t, f, m)
      | none => findInRegistry rest mission_id

/-- `MissionStack._handle_mission_completed` / `_failed` / `_abandoned`: all
three read `MissionID` (default 0) and delegate to `_remove_mission_by_id`. -/
def handleMissionRemoval (e : EventData) (reg : Registry) : Bool × Registry :=
  let mission_id := e.MissionID.getD 0
  match removeMissionById reg mission_id with
  | some reg' => (true, reg')
  | none => (false, reg)

/-- `MissionStack.process_event(event_data)`: dispatch on the `event` field
(default `''`); any other kind falls through to `False` with the registry
untouched.  The surrounding `try/except` never fires in this embedding (see the
safety theorem), so it is not modelled as a separate branch. -/
def processEvent (e : EventData) (reg : Registry) : Bool × Registry :=
  let event_type := e.event.getD ""
  if event_type = "MissionAccepted" then handleMissionAccepted e reg
  else if event_type = "MissionCompleted" then handleMissionRemoval e reg
  else if event_type = "MissionFailed" then handleMissionRemoval e reg
  else if event_type = "MissionAbandoned" then handleMissionRemoval e reg
  else (false, reg)

/-- `MissionStack.clear()`. -/
def clearStack (_reg : Registry) : Registry := []

/-- The per-target-faction rollup built by `MissionStack.get_summary()`.  The
per-faction `to_dict()` payload is represented by the `FactionMissions` value
itself (the dict is a field-for-field serialization of it). -/
structure TargetSummary where
  factions : List (String × FactionMissions)
  total_initial_kills : Int
  total_current_kills : Int
  total_reward : Int
  total_missions : Int
  deriving Repr, DecidableEq

/-- The stack-level rollup built by `MissionStack.get_summary()`. -/
structure StackSummary where
  target_factions : List (String × TargetSummary)
  total_initial_kills : Int
  total_current_kills : Int
  total_reward : Int
  total_missions : Int
  deriving Repr, DecidableEq

/-- The inner loop of `get_summary`: accumulate one target faction's rollup
over its ledgers, counting `len(missions)` per ledger. -/
def summarizeBucket (b : Bucket) : TargetSummary :=
  match b with
  | [] => { factions := [], total_initial_kills := 0, total_current_kills := 0,
            total_reward := 0, total_missions := 0 }
  | (f, fm) :: rest =>
      let s := summarizeBucket rest
      { factions := (f, fm) :: s.factions
        total_initial_kills := fm.total_initial_kills + s.total_initial_kills
        total_current_kills := fm.total_current_kills + s.total_current_kills
        total_reward := fm.total_reward + s.total_reward
        total_missions := (fm.missions.length : Int) + s.total_missions }

/-- `MissionStack.get_summary()`: nested rollups over the registry. -/
def getSummary (reg : Registry) : StackSummary :=
  match reg with
  | [] => { target_factions := [], total_initial_kills := 0, total_current_kills := 0,
            total_reward := 0, total_missions := 0 }
  | (t, b) :: rest =>
      let ts := summarizeBucket b
      let s := getSummary rest
      { target_factions := (t, ts) :: s.target_factions
        total_initial_kills := ts.total_initial_kills + s.total_initial_kills
        total_current_kills := ts.total_current_kills + s.total_current_kills
        total_reward := ts.total_reward + s.total_reward
        total_missions := ts.total_missions + s.total_missions }

/-- `MissionStack.get_kill_ratios()`: hand the registry to the calculator. -/
def getKillRatios (reg : Registry) : Except String (List (String × ℚ)) :=
  calculateRatios reg

/-- Claim-side description of removal inside one ledger (P5): erase the first
record whose `mission_id` matches and subtract the removed record's
`initial_kill_count`, `current_kill_count` and `reward` from the three
aggregates.  Stated with the generic `List.eraseP`; to be compared with
`FactionMissions.remove_mission`. -/
def removeRecordSpec (fm : FactionMissions) (r : MissionData) (mission_id : Int) :
    FactionMissions :=
  { fm with
    missions := fm.missions.eraseP (fun km => km.2.mission_id == mission_id)
    total_initial_kills := fm.total_initial_kills - r.initial_kill_count
    total_current_kills := fm.total_current_kills - r.current_kill_count
    total_reward := fm.total_reward - r.reward }

/-- Claim-side description of removal inside one target-faction bucket: rewrite
the ledger stored under the issuing faction `f` with `removeRecordSpec`, and
drop it from the bucket when it then owns no records.  To be compared with
`removeFromBucket`. -/
def removeSpecInBucket (b : Bucket) (f : String) (r : MissionData) (mission_id : Int) :
    Bucket :=
  b.filterMap (fun gfm =>
    if gfm.1 = f then
      let fm' := removeRecordSpec gfm.2 r mission_id
      if fm'.missions.isEmpty then none else some (gfm.1, fm')
    else some gfm)

/-- Claim-side description of removal on the whole registry: rewrite the bucket
stored under the target faction `t` with `removeSpecInBucket`, and drop the
bucket when it has become empty.  To be compared with `removeMissionById`. -/
def removeSpecRegistry (reg : Registry) (t f : String) (r : MissionData) (mission_id : Int) :
    Registry :=
  reg.filterMap (fun ub =>
    if ub.1 = t then
      let b' := removeSpecInBucket ub.2 f r mission_id
      if b'.isEmpty then none else some (ub.1, b')
    else some ub)

/-- Well-formedness of the registry as an image of nested Python dicts: the
target-faction keys are pairwise distinct and so are the issuing-faction keys
inside each bucket. -/
def registryKeysOk (reg : Registry) : Prop :=
  (reg.map Prod.fst).Nodup ∧ ∀ tb ∈ reg, (tb.2.map Prod.fst).Nodup

instance : DecidablePred registryKeysOk := fun reg => by
  unfold registryKeysOk; infer_instance

/-- The retained-state invariant of the spec: no target-faction bucket is empty
and no ledger owns zero records. -/
def NoEmpties (reg : Registry) : Prop :=
  ∀ tb ∈ reg, tb.2 ≠ [] ∧ ∀ ffm ∈ tb.2, ffm.2.missions ≠ []

instance : DecidablePred NoEmpties := fun reg => by
  unfold NoEmpties; infer_instance

/-- Registry states reachable from the fresh `MissionStack` by any sequence of
`process_event` and `clear` calls. -/
inductive Reachable : Registry → Prop where
  | init : Reachable []
  | step (e : EventData) {s : Registry} : Reachable s → Reachable (processEvent e s).2
  | cleared {s : Registry} : Reachable s → Reachable (clearStack s)

/-! ### Helper lemmas -/

theorem removeFromBucket_eq_none {b : Bucket} {mission_id : Int}
    (h : findInBucket b mission_id = none) : removeFromBucket b mission_id = none := by
  induction b with
  | nil => rfl
  | cons hd rest ih =>
      obtain ⟨f, fm⟩ := hd
      cases hrec : removeMissionRec fm.missions mission_id with
      | some p =>
          rw [findInBucket, hrec] at h
          exact absurd h (by simp)
      | none =>
          rw [findInBucket, hrec] at h
          rw [removeFromBucket, FactionMissions.remove_mission, hrec, ih h]

theorem removeMissionById_eq_none {reg : Registry} {mission_id : Int}
    (h : findInRegistry reg mission_id = none) : removeMissionById reg mission_id = none := by
  induction reg with
  | nil => rfl
  | cons hd rest ih =>
      obtain ⟨t, b⟩ := hd
      cases hb : findInBucket b mission_id with
      | some p =>
          rw [findInRegistry, hb] at h
          exact absurd h (by simp)
      | none =>
          rw [findInRegistry, hb] at h
          rw [removeMissionById, removeFromBucket_eq_none hb, ih h]

/-! ### C10 -/

/-- Claim C10: the `MissionData` built from an `Accepted` event takes both
`initial_kill_count` and `current_kill_count` from the event's `KillCount`
field (default 0 when absent), so a freshly added record starts with its
remaining kills at the full quota. -/
theorem ofEvent_kill_counts (e : EventData) :
    (MissionData.ofEvent e).initial_kill_count = e.KillCount.getD 0 ∧
    (MissionData.ofEvent e).current_kill_count = e.KillCount.getD 0 ∧
    (MissionData.ofEvent e).current_kill_count = (MissionData.ofEvent e).initial_kill_count :=
  ⟨rfl, rfl, rfl⟩

/-! ### C9 -/

/-- Claim C9: no core operation raises: `process_event`, the ledger mutators
and the ledger's `get_progress_percentage` all produce a value for every input;
in particular the guarded division inside the progress computation never takes
the `ZeroDivisionError` branch. -/
theorem ops_never_throw :
    (∀ e reg, ∃ r : Bool × Registry, processEvent e reg = r) ∧
    (∀ fm md, ∃ fm', FactionMissions.add_mission fm md = fm') ∧
    (∀ fm mission_id c, ∃ o, FactionMissions.update_mission_kills fm mission_id c = o) ∧
    (∀ fm mission_id, ∃ o, FactionMissions.remove_mission fm mission_id = o) ∧
    (∀ fm, ∃ q, FactionMissions.get_progress_percentageE fm = Except.ok q) := by
  refine ⟨fun e reg => ⟨_, rfl⟩, fun fm md => ⟨_, rfl⟩, fun fm i c => ⟨_, rfl⟩,
    fun fm i => ⟨_, rfl⟩, fun fm => ?_⟩
  unfold FactionMissions.get_progress_percentageE pydiv
  by_cases h : fm.total_initial_kills = 0
  · exact ⟨0, by simp [h]⟩
  · have hq : (fm.total_initial_kills : ℚ) ≠ 0 := Int.cast_ne_zero.mpr h
    exact ⟨(fm.total_current_kills : ℚ) / (fm.total_initial_kills : ℚ) * 100,
      by simp [h, hq, Except.map]⟩

/-! ### C8 -/

/-- Claim C8: `process_event` answers `False` and leaves the registry untouched
for any event whose kind is not one of the four handled mission kinds, for an
`Accepted` event whose `Name` lacks the `Mission_Massacre` marker, and for a
`Completed`/`Failed`/`Abandoned` event whose `MissionID` matches no record. -/
theorem processEvent_not_handled :
    (∀ e reg, e.event.getD "" ∉
        (["MissionAccepted", "MissionCompleted", "MissionFailed", "MissionAbandoned"] :
          List String) →
      processEvent e reg = (false, reg)) ∧
    (∀ e reg, e.event.getD "" = "MissionAccepted" →
      strContainsSub (e.Name.getD "") "Mission_Massacre" = false →
      processEvent e reg = (false, reg)) ∧
    (∀ e reg, e.event.getD "" ∈
        (["MissionCompleted", "MissionFailed", "MissionAbandoned"] : List String) →
      findInRegistry reg (e.MissionID.getD 0) = none →
      processEvent e reg = (false, reg)) := by
  refine ⟨fun e reg h => ?_, fun e reg h hm => ?_, fun e reg h hf => ?_⟩
  · simp only [List.mem_cons, List.not_mem_nil, or_false, not_or] at h
    obtain ⟨h1, h2, h3, h4⟩ := h
    simp [processEvent, h1, h2, h3, h4]
  · simp [processEvent, h, handleMissionAccepted, hm]
  · have hrem : handleMissionRemoval e reg = (false, reg) := by
      rw [handleMissionRemoval, removeMissionById_eq_none hf]
    simp only [List.mem_cons, List.not_mem_nil, or_false] at h
    rcases h with h | h | h <;> simp [processEvent, h, hrem]

/-- Witness for C8: a `Loadout` event, a non-massacre `Accepted` event, and an
`Abandoned` event with an unknown id are all answered `False` on a concrete
registry, which stays unchanged. -/
theorem processEvent_not_handled_witness :
    (({ event := some "Loadout" } : EventData).event.getD "" ∉
        (["MissionAccepted", "MissionCompleted", "MissionFailed", "MissionAbandoned"] :
          List String) ∧
      processEvent { event := some "Loadout" } [] = (false, [])) ∧
    (strContainsSub "Mission_Courier" "Mission_Massacre" = false ∧
      processEvent { event := some "MissionAccepted", Name := some "Mission_Courier" } [] =
        (false, [])) ∧
    (findInRegistry [] 42 = none ∧
      processEvent { event := some "MissionAbandoned", MissionID := some 42 } [] =
        (false, [])) :=
  ⟨⟨by decide, processEvent_not_handled.1 _ _ (by decide)⟩,
   ⟨by decide, processEvent_not_handled.2.1 _ _ (by decide) (by decide)⟩,
   ⟨rfl, processEvent_not_handled.2.2 _ _ (by decide) rfl⟩⟩

/-! ### C1 and C6: the kill-ratio formula -/

theorem le_foldl_max_init (xs : List Int) (x : Int) : x ≤ xs.foldl max x := by
  induction xs generalizing x with
  | nil => exact le_refl x
  | cons y ys ih => exact le_trans (le_max_left x y) (ih (max x y))

theorem mem_le_foldl_max (xs : List Int) (x a : Int) (h : a ∈ xs) : a ≤ xs.foldl max x := by
  induction xs generalizing x with
  | nil => cases h
  | cons y ys ih =>
      rcases List.mem_cons.mp h with rfl | h
      · exact le_trans (le_max_right x a) (le_foldl_max_init ys (max x a))
      · exact ih (max x y) h

theorem sum_pos_exists_pos {l : List Int} (h : 0 < l.sum) : ∃ a ∈ l, 0 < a := by
  induction l with
  | nil => simp at h
  | cons x xs ih =>
      by_cases hx : 0 < x
      · exact ⟨x, List.mem_cons_self x xs, hx⟩
      · rw [List.sum_cons] at h
        have hxs : 0 < xs.sum := by linarith [not_lt.mp hx]
        obtain ⟨a, ha, hpa⟩ := ih hxs
        exact ⟨a, List.mem_cons_of_mem x ha, hpa⟩

/-- For at least two values with a positive total, `_compute_kill_ratio`
returns exactly `(maxF / total) * (avg / maxF) = 1 / n`, whatever the
distribution of the values; the clamp into `[0, 1]` never fires. -/
theorem computeKillRatio_eq_inv_length (vals : List Int) (h2 : 2 ≤ vals.length)
    (hpos : 0 < vals.sum) : computeKillRatio vals = Except.ok (1 / (vals.length : ℚ)) := by
  obtain ⟨x, xs, rfl⟩ : ∃ x xs, vals = x :: xs := by
    cases vals with
    | nil => simp at h2
    | cons x xs => exact ⟨x, xs, rfl⟩
  have hlen0 : (x :: xs).length ≠ 0 := by simp
  have hlen1 : (x :: xs).length ≠ 1 := by omega
  have hsum0 : (x :: xs).sum ≠ 0 := ne_of_gt hpos
  have hmpos : 0 < xs.foldl max x := by
    obtain ⟨a, ha, hpa⟩ := sum_pos_exists_pos hpos
    rcases List.mem_cons.mp ha with rfl | ha
    · exact lt_of_lt_of_le hpa (le_foldl_max_init xs a)
    · exact lt_of_lt_of_le hpa (mem_le_foldl_max xs x a ha)
  have hlenQ : ((x :: xs).length : ℚ) ≠ 0 := Nat.cast_ne_zero.mpr hlen0
  have hmQ : ((xs.foldl max x : Int) : ℚ) ≠ 0 := Int.cast_ne_zero.mpr (ne_of_gt hmpos)
  have hsumQ : (((x :: xs).sum : Int) : ℚ) ≠ 0 := Int.cast_ne_zero.mpr hsum0
  have key : ∀ M S N : ℚ, M ≠ 0 → S ≠ 0 → N ≠ 0 → M / S * (S / N / M) = 1 / N := by
    intro M S N hM hS hN
    field_simp
    ring
  have hle1 : 1 / (((x :: xs).length : ℚ)) ≤ 1 := by
    rw [div_le_one (by positivity)]
    exact_mod_cast (by omega : 1 ≤ (x :: xs).length)
  have hge0 : 0 ≤ 1 / (((x :: xs).length : ℚ)) := by positivity
  simp only [computeKillRatio, pymax, pydiv, Except.bind, if_neg hlen0, if_neg hlen1,
    if_neg hsum0, if_neg hlenQ, if_pos hmpos, if_neg hmQ, if_pos hpos, if_neg hsumQ]
  rw [key _ _ _ hmQ hsumQ hlenQ, min_eq_right hle1, max_eq_right hge0]

/-- Claim C1: a target faction with `n ≥ 2` issuing factions whose remaining
kills have a positive total gets kill ratio
`(maxF / total) * (avg / maxF) = 1 / n` exactly, independently of how the
remaining kills are distributed across the issuing factions. -/
theorem targetFactionRatio_eq_inv_count (fd : Bucket) (h2 : 2 ≤ fd.length)
    (hpos : 0 < (fd.map (fun kv => calculateFactionRemainingKills kv.2)).sum) :
    calculateTargetFactionRatio fd = Except.ok (1 / (fd.length : ℚ)) := by
  rw [calculateTargetFactionRatio, if_neg (by omega)]
  have h := computeKillRatio_eq_inv_length
    (fd.map (fun kv => calculateFactionRemainingKills kv.2))
    (by rw [List.length_map]; exact h2) hpos
  rw [h, List.length_map]

/-- First ledger record for the C1 witness: five remaining kills. -/
def c1md1 : MissionData :=
  MissionData.mk 1 "Mission_Massacre_A" "k1" "A" "T" 5 5 10 "" false "" "" ""

/-- Second ledger record for the C1 witness: zero remaining kills, so the
distribution is maximally skewed. -/
def c1md2 : MissionData :=
  MissionData.mk 2 "Mission_Massacre_B" "k2" "B" "T" 9 0 10 "" false "" "" ""

/-- Two-issuer bucket for the C1 witness with remaining kills `[5, 0]`. -/
def c1Bucket : Bucket :=
  [("A", FactionMissions.mk "A" [("k1", c1md1)] 5 5 10),
   ("B", FactionMissions.mk "B" [("k2", c1md2)] 9 0 10)]

/-- Witness for C1: two issuing factions with the maximally skewed remaining
distribution `[5, 0]` still get ratio `1/2`. -/
theorem targetFactionRatio_eq_inv_count_witness :
    2 ≤ c1Bucket.length ∧
    0 < (c1Bucket.map (fun kv => calculateFactionRemainingKills kv.2)).sum ∧
    calculateTargetFactionRatio c1Bucket = Except.ok (1 / 2 : ℚ) :=
  ⟨by decide, by decide, by
    have h := targetFactionRatio_eq_inv_count c1Bucket (by decide) (by decide)
    rw [show c1Bucket.length = 2 from by decide] at h
    norm_num at h
    exact h⟩

/-- Claim C6: a single issuing faction always gets ratio `1.0` whatever the
kill counts; no issuing factions gets `0.0`; at least two issuing factions
whose remaining kills total `0` also get `0.0`. -/
theorem targetFactionRatio_edge_cases :
    (∀ fd : Bucket, fd.length = 1 → calculateTargetFactionRatio fd = Except.ok 1) ∧
    (∀ fd : Bucket, fd = [] → calculateTargetFactionRatio fd = Except.ok 0) ∧
    (∀ fd : Bucket, 2 ≤ fd.length →
      (fd.map (fun kv => calculateFactionRemainingKills kv.2)).sum = 0 →
      calculateTargetFactionRatio fd = Except.ok 0) := by
  refine ⟨fun fd h => ?_, fun fd h => ?_, fun fd h2 hsum => ?_⟩
  · simp [calculateTargetFactionRatio, h]
  · subst h
    rfl
  · rw [calculateTargetFactionRatio, if_neg (by omega), computeKillRatio]
    rw [List.length_map]
    rw [if_neg (by omega), if_neg (by omega), if_pos hsum]

/-- Witness for C6: one issuing faction gives `1.0`; an empty bucket gives
`0.0`; two issuing factions with no remaining kills give `0.0`. -/
theorem targetFactionRatio_edge_cases_witness :
    (([("A", FactionMissions.init "A")] : Bucket).length = 1 ∧
      calculateTargetFactionRatio [("A", FactionMissions.init "A")] = Except.ok 1) ∧
    calculateTargetFactionRatio [] = Except.ok 0 ∧
    (2 ≤ ([("A", FactionMissions.init "A"), ("B", FactionMissions.init "B")] : Bucket).length ∧
      (([("A", FactionMissions.init "A"), ("B", FactionMissions.init "B")] : Bucket).map
        (fun kv => calculateFactionRemainingKills kv.2)).sum = 0 ∧
      calculateTargetFactionRatio [("A", FactionMissions.init "A"),
        ("B", FactionMissions.init "B")] = Except.ok 0) :=
  ⟨⟨by decide, targetFactionRatio_edge_cases.1 _ (by decide)⟩,
   targetFactionRatio_edge_cases.2.1 [] rfl,
   by decide, by decide,
   targetFactionRatio_edge_cases.2.2 _ (by decide) (by decide)⟩

/-! ### C3 and C4: the ledger add paths -/

theorem containsKey_cons (k' : String) (m' : MissionData)
    (rest : List (String × MissionData)) (k : String) :
    containsKey ((k', m') :: rest) k = ((k' == k) || containsKey rest k) := by
  rw [containsKey, List.any_cons]
  rfl

theorem containsKey_eq_true_iff {l : List (String × MissionData)} {k : String} :
    containsKey l k = true ↔ k ∈ l.map Prod.fst := by
  simp only [containsKey, List.any_eq_true, List.mem_map, beq_iff_eq]

theorem containsKey_eq_false_iff {l : List (String × MissionData)} {k : String} :
    containsKey l k = false ↔ k ∉ l.map Prod.fst := by
  constructor
  · intro h hmem
    rw [← containsKey_eq_true_iff, h] at hmem
    cases hmem
  · intro h
    cases hck : containsKey l k
    · rfl
    · exact absurd (containsKey_eq_true_iff.mp hck) h

theorem containsKey_split {l : List (String × MissionData)} {k : String}
    (h : containsKey l k = true) :
    ∃ l₁ m l₂, l = l₁ ++ (k, m) :: l₂ ∧ containsKey l₁ k = false ∧
      ∀ c, updateKillAt l k c = l₁ ++ (k, m.update_kill_count c) :: l₂ := by
  induction l with
  | nil => simp [containsKey] at h
  | cons hd rest ih =>
      obtain ⟨k', m'⟩ := hd
      by_cases hk : k' = k
      · subst hk
        exact ⟨[], m', rest, rfl, rfl, fun c => by rw [updateKillAt, if_pos rfl, List.nil_append]⟩
      · have hbf : (k' == k) = false := beq_eq_false_iff_ne.mpr hk
        rw [containsKey_cons, hbf, Bool.false_or] at h
        obtain ⟨l₁, m, l₂, heq, hnc, hupd⟩ := ih h
        refine ⟨(k', m') :: l₁, m, l₂, by rw [List.cons_append, heq], ?_, fun c => ?_⟩
        · rw [containsKey_cons, hbf, Bool.false_or]
          exact hnc
        · rw [updateKillAt, if_neg hk, hupd c, List.cons_append]

/-- Claim C3: adding a record whose dedup key is already in the ledger only
replaces the stored record's `current_kill_count`; the three aggregates, the
key sequence, and every other field of the stored record stay as they were. -/
theorem add_existing_key_updates_only_current (fm : FactionMissions) (md : MissionData)
    (h : containsKey fm.missions md.localised_name = true) :
    (fm.add_mission md).total_initial_kills = fm.total_initial_kills ∧
    (fm.add_mission md).total_current_kills = fm.total_current_kills ∧
    (fm.add_mission md).total_reward = fm.total_reward ∧
    (fm.add_mission md).missions.map Prod.fst = fm.missions.map Prod.fst ∧
    ∃ l₁ m l₂, fm.missions = l₁ ++ (md.localised_name, m) :: l₂ ∧
      containsKey l₁ md.localised_name = false ∧
      (fm.add_mission md).missions =
        l₁ ++ (md.localised_name, m.update_kill_count md.current_kill_count) :: l₂ := by
  have hadd : fm.add_mission md =
      { fm with missions := updateKillAt fm.missions md.localised_name md.current_kill_count } := by
    rw [FactionMissions.add_mission, if_pos h]
  obtain ⟨l₁, m, l₂, heq, hnc, hupd⟩ := containsKey_split h
  refine ⟨by rw [hadd], by rw [hadd], by rw [hadd], ?_,
    l₁, m, l₂, heq, hnc, by rw [hadd]; exact hupd _⟩
  rw [hadd]
  show (updateKillAt fm.missions md.localised_name md.current_kill_count).map Prod.fst = _
  rw [hupd md.current_kill_count, heq]
  simp [MissionData.update_kill_count]

/-- Sample stored record for the C3 witness. -/
def c3Stored : MissionData :=
  MissionData.mk 7 "Mission_Massacre_A" "Massacre X" "F" "T" 10 10 100 "" false "" "" ""

/-- Sample incoming record for the C3 witness: same dedup key, all other
fields different. -/
def c3Incoming : MissionData :=
  MissionData.mk 8 "Mission_Massacre_B" "Massacre X" "F" "T" 12 9 200 "" false "" "" ""

/-- Sample ledger for the C3 witness. -/
def c3Ledger : FactionMissions := FactionMissions.mk "F" [("Massacre X", c3Stored)] 10 10 100

/-- Witness for C3: on a one-record ledger, adding a colliding record keeps
the aggregates and keys and only rewrites the stored `current_kill_count`. -/
theorem add_existing_key_witness :
    containsKey c3Ledger.missions c3Incoming.localised_name = true ∧
    ((c3Ledger.add_mission c3Incoming).total_initial_kills = c3Ledger.total_initial_kills ∧
    (c3Ledger.add_mission c3Incoming).total_current_kills = c3Ledger.total_current_kills ∧
    (c3Ledger.add_mission c3Incoming).total_reward = c3Ledger.total_reward ∧
    (c3Ledger.add_mission c3Incoming).missions.map Prod.fst = c3Ledger.missions.map Prod.fst ∧
    ∃ l₁ m l₂, c3Ledger.missions = l₁ ++ (c3Incoming.localised_name, m) :: l₂ ∧
      containsKey l₁ c3Incoming.localised_name = false ∧
      (c3Ledger.add_mission c3Incoming).missions =
        l₁ ++ (c3Incoming.localised_name,
          m.update_kill_count c3Incoming.current_kill_count) :: l₂) :=
  ⟨by decide, add_existing_key_updates_only_current c3Ledger c3Incoming (by decide)⟩

theorem foldl_add_fresh (rs : List MissionData) (fm : FactionMissions)
    (hnd : (rs.map (fun r => r.localised_name)).Nodup)
    (hdisj : ∀ r ∈ rs, containsKey fm.missions r.localised_name = false) :
    (rs.foldl FactionMissions.add_mission fm).total_initial_kills =
        fm.total_initial_kills + (rs.map (fun r => r.initial_kill_count)).sum ∧
    (rs.foldl FactionMissions.add_mission fm).total_current_kills =
        fm.total_current_kills + (rs.map (fun r => r.current_kill_count)).sum ∧
    (rs.foldl FactionMissions.add_mission fm).total_reward =
        fm.total_reward + (rs.map (fun r => r.reward)).sum ∧
    (rs.foldl FactionMissions.add_mission fm).missions.map Prod.fst =
        fm.missions.map Prod.fst ++ rs.map (fun r => r.localised_name) := by
  induction rs generalizing fm with
  | nil => simp
  | cons r rs ih =>
      have hr : containsKey fm.missions r.localised_name = false :=
        hdisj r (List.mem_cons_self r rs)
      have hadd : fm.add_mission r =
          { fm with
            missions := fm.missions ++ [(r.localised_name, r)]
            total_initial_kills := fm.total_initial_kills + r.initial_kill_count
            total_current_kills := fm.total_current_kills + r.current_kill_count
            total_reward := fm.total_reward + r.reward } := by
        rw [FactionMissions.add_mission, if_neg (by simp [hr])]
      have hkeys : (fm.add_mission r).missions.map Prod.fst =
          fm.missions.map Prod.fst ++ [r.localised_name] := by
        rw [hadd]
        simp
      rw [List.map_cons, List.nodup_cons] at hnd
      have hdisj' : ∀ r' ∈ rs, containsKey (fm.add_mission r).missions r'.localised_name
          = false := by
        intro r' hr'
        rw [containsKey_eq_false_iff, hkeys]
        rw [List.mem_append, List.mem_singleton]
        rintro (hmem | hname)
        · exact containsKey_eq_false_iff.mp (hdisj r' (List.mem_cons_of_mem r hr')) hmem
        · exact hnd.1 (hname ▸ List.mem_map_of_mem (fun r => r.localised_name) hr')
      obtain ⟨h1, h2, h3, h4⟩ := ih (fm.add_mission r) hnd.2 hdisj'
      rw [List.foldl_cons]
      refine ⟨?_, ?_, ?_, ?_⟩
      · rw [h1, hadd]
        simp [add_assoc]
      · rw [h2, hadd]
        simp [add_assoc]
      · rw [h3, hadd]
        simp [add_assoc]
      · rw [h4, hkeys]
        simp

/-- Claim C4: folding records with pairwise-distinct dedup keys into a fresh
ledger makes the three aggregates the exact sums of the records' fields. -/
theorem fresh_ledger_aggregates (name : String) (rs : List MissionData)
    (hnd : (rs.map (fun r => r.localised_name)).Nodup) :
    (rs.foldl FactionMissions.add_mission (FactionMissions.init name)).total_initial_kills =
        (rs.map (fun r => r.initial_kill_count)).sum ∧
    (rs.foldl FactionMissions.add_mission (FactionMissions.init name)).total_current_kills =
        (rs.map (fun r => r.current_kill_count)).sum ∧
    (rs.foldl FactionMissions.add_mission (FactionMissions.init name)).total_reward =
        (rs.map (fun r => r.reward)).sum := by
  have h := foldl_add_fresh rs (FactionMissions.init name) hnd
    (fun r _ => by rw [containsKey_eq_false_iff]; simp [FactionMissions.init])
  obtain ⟨h1, h2, h3, _⟩ := h
  rw [FactionMissions.init] at h1 h2 h3
  simp only [zero_add] at h1 h2 h3
  exact ⟨h1, h2, h3⟩

/-- First sample record for the C4 witness. -/
def c4r1 : MissionData :=
  MissionData.mk 1 "Mission_Massacre_A" "Kill 10 pirates" "F" "T" 10 10 100 "" false "" "" ""

/-- Second sample record for the C4 witness, with a different dedup key. -/
def c4r2 : MissionData :=
  MissionData.mk 2 "Mission_Massacre_B" "Kill 20 pirates" "F" "T" 20 18 250 "" true "" "" ""

/-- Witness for C4: two records with distinct display names added to a fresh
ledger make the aggregates the exact field sums. -/
theorem fresh_ledger_aggregates_witness :
    (([c4r1, c4r2].map (fun r => r.localised_name)).Nodup) ∧
    (([c4r1, c4r2].foldl FactionMissions.add_mission
        (FactionMissions.init "F")).total_initial_kills =
      ([c4r1, c4r2].map (fun r => r.initial_kill_count)).sum ∧
    ([c4r1, c4r2].foldl FactionMissions.add_mission
        (FactionMissions.init "F")).total_current_kills =
      ([c4r1, c4r2].map (fun r => r.current_kill_count)).sum ∧
    ([c4r1, c4r2].foldl FactionMissions.add_mission
        (FactionMissions.init "F")).total_reward =
      ([c4r1, c4r2].map (fun r => r.reward)).sum) :=
  ⟨by decide, fresh_ledger_aggregates "F" [c4r1, c4r2] (by decide)⟩

/-! ### C5: no empty ledger or bucket is ever retained -/

theorem upsert_ne_nil {α : Type} (l : List (String × α)) (k : String) (d : α) (u : α → α) :
    upsert l k d u ≠ [] := by
  cases l with
  | nil => simp [upsert]
  | cons hd rest =>
      obtain ⟨k', v⟩ := hd
      rw [upsert]
      by_cases hk : k' = k <;> simp [hk]

theorem upsert_forall {α : Type} (P : α → Prop) (l : List (String × α)) (k : String)
    (d : α) (u : α → α) (hl : ∀ kv ∈ l, P kv.2) (hd : P (u d))
    (hu : ∀ v, P v → P (u v)) : ∀ kv ∈ upsert l k d u, P kv.2 := by
  induction l with
  | nil =>
      intro kv hkv
      rw [upsert, List.mem_singleton] at hkv
      subst hkv
      exact hd
  | cons hd' rest ih =>
      obtain ⟨k', v⟩ := hd'
      intro kv hkv
      rw [upsert] at hkv
      by_cases hk : k' = k
      · rw [if_pos hk, List.mem_cons] at hkv
        rcases hkv with rfl | hkv
        · exact hu v (hl (k', v) (List.mem_cons_self _ _))
        · exact hl kv (List.mem_cons_of_mem _ hkv)
      · rw [if_neg hk, List.mem_cons] at hkv
        rcases hkv with rfl | hkv
        · exact hl (k', v) (List.mem_cons_self _ _)
        · exact ih (fun kv' h => hl kv' (List.mem_cons_of_mem _ h)) kv hkv

theorem updateKillAt_ne_nil {l : List (String × MissionData)} {key : String} {c : Int}
    (h : l ≠ []) : updateKillAt l key c ≠ [] := by
  cases l with
  | nil => exact absurd rfl h
  | cons hd rest =>
      obtain ⟨k, m⟩ := hd
      rw [updateKillAt]
      by_cases hk : k = key <;> simp [hk]

theorem add_mission_missions_ne_nil (fm : FactionMissions) (md : MissionData) :
    (fm.add_mission md).missions ≠ [] := by
  rw [FactionMissions.add_mission]
  by_cases h : containsKey fm.missions md.localised_name
  · rw [if_pos h]
    have hne : fm.missions ≠ [] := by
      intro hnil
      rw [hnil] at h
      cases h
    exact updateKillAt_ne_nil hne
  · rw [if_neg h]
    simp

theorem upsert_bucket_ledgers_ne_nil (b : Bucket) (f : String) (md : MissionData)
    (hb : ∀ ffm ∈ b, ffm.2.missions ≠ []) :
    ∀ ffm ∈ upsert b f (FactionMissions.init f) (fun fm => fm.add_mission md),
      ffm.2.missions ≠ [] :=
  upsert_forall (fun fm => fm.missions ≠ []) b f (FactionMissions.init f)
    (fun fm => fm.add_mission md) hb (add_mission_missions_ne_nil _ _)
    (fun _ _ => add_mission_missions_ne_nil _ _)

theorem handleMissionAccepted_NoEmpties (e : EventData) {reg : Registry}
    (hne : NoEmpties reg) : NoEmpties (handleMissionAccepted e reg).2 := by
  rw [handleMissionAccepted]
  by_cases hmark : strContainsSub (e.Name.getD "") "Mission_Massacre" = false
  · rw [if_pos hmark]
    exact hne
  · rw [if_neg hmark]
    intro tb htb
    refine ⟨?_, ?_⟩
    · have := upsert_forall (fun b : Bucket => b ≠ []) reg (MissionData.ofEvent e).target_faction
        [] (fun bucket => upsert bucket (MissionData.ofEvent e).faction
          (FactionMissions.init (MissionData.ofEvent e).faction)
          (fun fm => fm.add_mission (MissionData.ofEvent e)))
        (fun kv hkv => (hne kv hkv).1) (upsert_ne_nil _ _ _ _)
        (fun v _ => upsert_ne_nil _ _ _ _)
      exact this tb htb
    · have := upsert_forall
        (fun b : Bucket => ∀ ffm ∈ b, ffm.2.missions ≠ [])
        reg (MissionData.ofEvent e).target_faction []
        (fun bucket => upsert bucket (MissionData.ofEvent e).faction
          (FactionMissions.init (MissionData.ofEvent e).faction)
          (fun fm => fm.add_mission (MissionData.ofEvent e)))
        (fun kv hkv => (hne kv hkv).2)
        (upsert_bucket_ledgers_ne_nil [] (MissionData.ofEvent e).faction
          (MissionData.ofEvent e) (fun x hx => absurd hx (List.not_mem_nil x)))
        (fun v hv => upsert_bucket_ledgers_ne_nil v (MissionData.ofEvent e).faction
          (MissionData.ofEvent e) hv)
      exact this tb htb

theorem removeFromBucket_preserves {b b' : Bucket} {mission_id : Int}
    (h : removeFromBucket b mission_id = some b')
    (hb : ∀ ffm ∈ b, ffm.2.missions ≠ []) : ∀ ffm ∈ b', ffm.2.missions ≠ [] := by
  induction b generalizing b' with
  | nil => cases h
  | cons hd rest ih =>
      obtain ⟨f, fm⟩ := hd
      rw [removeFromBucket] at h
      cases hrm : fm.remove_mission mission_id with
      | some fm' =>
          rw [hrm] at h
          injection h with h
          subst h
          by_cases hemp : fm'.missions.isEmpty
          · rw [if_pos hemp]
            exact fun ffm hffm => hb ffm (List.mem_cons_of_mem _ hffm)
          · rw [if_neg hemp]
            intro ffm hffm
            rcases List.mem_cons.mp hffm with rfl | hffm
            · intro hnil
              rw [List.isEmpty_iff] at hemp
              exact hemp hnil
            · exact hb ffm (List.mem_cons_of_mem _ hffm)
      | none =>
          rw [hrm] at h
          cases hrest : removeFromBucket rest mission_id with
          | some rest' =>
              rw [hrest] at h
              injection h with h
              subst h
              intro ffm hffm
              rcases List.mem_cons.mp hffm with rfl | hffm
              · exact hb _ (List.mem_cons_self _ _)
              · exact ih hrest (fun x hx => hb x (List.mem_cons_of_mem _ hx)) ffm hffm
          | none =>
              rw [hrest] at h
              cases h

theorem removeMissionById_preserves {reg reg' : Registry} {mission_id : Int}
    (h : removeMissionById reg mission_id = some reg') (hne : NoEmpties reg) :
    NoEmpties reg' := by
  induction reg generalizing reg' with
  | nil => cases h
  | cons hd rest ih =>
      obtain ⟨t, b⟩ := hd
      rw [removeMissionById] at h
      cases hrb : removeFromBucket b mission_id with
      | some b' =>
          rw [hrb] at h
          injection h with h
          subst h
          by_cases hemp : b'.isEmpty
          · rw [if_pos hemp]
            exact fun tb htb => hne tb (List.mem_cons_of_mem _ htb)
          · rw [if_neg hemp]
            intro tb htb
            rcases List.mem_cons.mp htb with rfl | htb
            · refine ⟨fun hnil => hemp (by rw [show b' = [] from hnil]; rfl), ?_⟩
              exact removeFromBucket_preserves hrb (hne (t, b) (List.mem_cons_self _ _)).2
            · exact hne tb (List.mem_cons_of_mem _ htb)
      | none =>
          rw [hrb] at h
          cases hrest : removeMissionById rest mission_id with
          | some rest' =>
              rw [hrest] at h
              injection h with h
              subst h
              intro tb htb
              rcases List.mem_cons.mp htb with rfl | htb
              · exact hne _ (List.mem_cons_self _ _)
              · exact ih hrest (fun x hx => hne x (List.mem_cons_of_mem _ hx)) tb htb
          | none =>
              rw [hrest] at h
              cases h

theorem handleMissionRemoval_NoEmpties (e : EventData) {reg : Registry}
    (hne : NoEmpties reg) : NoEmpties (handleMissionRemoval e reg).2 := by
  rw [handleMissionRemoval]
  cases hrm : removeMissionById reg (e.MissionID.getD 0) with
  | some reg' =>
      exact removeMissionById_preserves hrm hne
  | none =>
      exact hne

/-- Claim C5: every registry reachable from the fresh stack by `process_event`
and `clear` calls retains no empty target-faction bucket and no ledger with
zero records. -/
theorem reachable_NoEmpties {reg : Registry} (h : Reachable reg) : NoEmpties reg := by
  induction h with
  | init => exact fun tb htb => absurd htb (List.not_mem_nil tb)
  | cleared _ => exact fun tb htb => absurd htb (List.not_mem_nil tb)
  | step e _ ih =>
      simp only [processEvent]
      split_ifs
      · exact handleMissionAccepted_NoEmpties e ih
      · exact handleMissionRemoval_NoEmpties e ih
      · exact handleMissionRemoval_NoEmpties e ih
      · exact handleMissionRemoval_NoEmpties e ih
      · exact ih

/-- Accepted-massacre event used by the C5 witness. -/
def c5Event : EventData :=
  { event := some "MissionAccepted", Name := some "Mission_MassacreWing",
    LocalisedName := some "Massacre day", Faction := some "F", TargetFaction := some "T",
    KillCount := some 12, Reward := some 5, MissionID := some 9 }

/-- Witness for C5: the state after accepting one massacre mission from the
fresh stack satisfies the no-empties invariant. -/
theorem reachable_NoEmpties_witness : NoEmpties (processEvent c5Event []).2 :=
  reachable_NoEmpties (Reachable.step c5Event Reachable.init)

/-! ### C2: removal by mission id matches its claim-side description -/

theorem removeMissionRec_eraseP {l : List (String × MissionData)} {mission_id : Int}
    {m : MissionData} {l' : List (String × MissionData)}
    (h : removeMissionRec l mission_id = some (m, l')) :
    l' = l.eraseP (fun km => km.2.mission_id == mission_id) := by
  induction l generalizing l' with
  | nil => cases h
  | cons hd rest ih =>
      obtain ⟨k, m₀⟩ := hd
      rw [removeMissionRec] at h
      by_cases hm : m₀.mission_id = mission_id
      · rw [if_pos hm] at h
        injection h with h
        rw [List.eraseP_cons_of_pos (by simpa using hm)]
        exact (congrArg Prod.snd h).symm
      · rw [if_neg hm] at h
        cases hrec : removeMissionRec rest mission_id with
        | some p =>
            obtain ⟨r, rest'⟩ := p
            rw [hrec] at h
            injection h with h
            have hr : r = m := congrArg Prod.fst h
            have h2 : l' = (k, m₀) :: rest' := (congrArg Prod.snd h).symm
            subst hr
            rw [h2, List.eraseP_cons_of_neg (by simpa using hm), ih hrec]
        | none =>
            rw [hrec] at h
            cases h

theorem remove_mission_eq_spec {fm : FactionMissions} {mission_id : Int}
    {m : MissionData} {ms' : List (String × MissionData)}
    (h : removeMissionRec fm.missions mission_id = some (m, ms')) :
    fm.remove_mission mission_id = some (removeRecordSpec fm m mission_id) := by
  rw [FactionMissions.remove_mission, h, removeRecordSpec, removeMissionRec_eraseP h]

theorem remove_mission_eq_none {fm : FactionMissions} {mission_id : Int}
    (h : removeMissionRec fm.missions mission_id = none) :
    fm.remove_mission mission_id = none := by
  rw [FactionMissions.remove_mission, h]

theorem removeSpecInBucket_cons_eq {g : String} {fm : FactionMissions} {rest : Bucket}
    {f : String} {r : MissionData} {mission_id : Int} (hg : g = f) :
    removeSpecInBucket ((g, fm) :: rest) f r mission_id =
      (if (removeRecordSpec fm r mission_id).missions.isEmpty then ([] : Bucket)
       else [(g, removeRecordSpec fm r mission_id)]) ++
        removeSpecInBucket rest f r mission_id := by
  subst hg
  rw [removeSpecInBucket, List.filterMap_cons]
  by_cases he : (removeRecordSpec fm r mission_id).missions.isEmpty
  · rw [if_pos (show (g, fm).1 = g from rfl), if_pos he, if_pos he]
    rfl
  · rw [if_pos (show (g, fm).1 = g from rfl), if_neg he, if_neg he]
    rfl

theorem removeSpecInBucket_cons_ne {g : String} {fm : FactionMissions} {rest : Bucket}
    {f : String} {r : MissionData} {mission_id : Int} (hg : g ≠ f) :
    removeSpecInBucket ((g, fm) :: rest) f r mission_id =
      (g, fm) :: removeSpecInBucket rest f r mission_id := by
  rw [removeSpecInBucket, List.filterMap_cons, if_neg hg]
  rfl

theorem removeSpecInBucket_not_mem {b : Bucket} {f : String} {r : MissionData}
    {mission_id : Int} (h : ∀ gfm ∈ b, gfm.1 ≠ f) :
    removeSpecInBucket b f r mission_id = b := by
  induction b with
  | nil => rfl
  | cons hd rest ih =>
      obtain ⟨g, fm⟩ := hd
      rw [removeSpecInBucket_cons_ne (h (g, fm) (List.mem_cons_self _ _))]
      rw [ih (fun x hx => h x (List.mem_cons_of_mem _ hx))]

theorem findInBucket_mem {b : Bucket} {mission_id : Int} {f : String} {r : MissionData}
    (h : findInBucket b mission_id = some (f, r)) : f ∈ b.map Prod.fst := by
  induction b with
  | nil => cases h
  | cons hd rest ih =>
      obtain ⟨g, fm⟩ := hd
      rw [findInBucket] at h
      cases hrec : removeMissionRec fm.missions mission_id with
      | some p =>
          rw [hrec] at h
          injection h with h
          have hg : g = f := congrArg Prod.fst h
          rw [List.map_cons, hg]
          exact List.mem_cons_self _ _
      | none =>
          rw [hrec] at h
          rw [List.map_cons]
          exact List.mem_cons_of_mem _ (ih h)

theorem removeFromBucket_eq_spec {b : Bucket} {mission_id : Int} {f : String}
    {r : MissionData} (hnd : (b.map Prod.fst).Nodup)
    (h : findInBucket b mission_id = some (f, r)) :
    removeFromBucket b mission_id = some (removeSpecInBucket b f r mission_id) := by
  induction b with
  | nil => cases h
  | cons hd rest ih =>
      obtain ⟨g, fm⟩ := hd
      rw [List.map_cons, List.nodup_cons] at hnd
      rw [findInBucket] at h
      cases hrec : removeMissionRec fm.missions mission_id with
      | some p =>
          obtain ⟨m, ms'⟩ := p
          rw [hrec] at h
          injection h with h
          have hg : g = f := congrArg Prod.fst h
          have hm : m = r := congrArg Prod.snd h
          subst hg
          subst hm
          have hrest : ∀ gfm ∈ rest, gfm.1 ≠ g := by
            intro gfm hmem heq
            have hmm : gfm.1 ∈ List.map Prod.fst rest := List.mem_map_of_mem Prod.fst hmem
            rw [heq] at hmm
            exact hnd.1 hmm
          rw [removeFromBucket, remove_mission_eq_spec hrec]
          show some (if (removeRecordSpec fm m mission_id).missions.isEmpty = true
              then rest else (g, removeRecordSpec fm m mission_id) :: rest) = _
          rw [removeSpecInBucket_cons_eq rfl, removeSpecInBucket_not_mem hrest]
          by_cases he : (removeRecordSpec fm m mission_id).missions.isEmpty
          · rw [if_pos he, if_pos he]
            rfl
          · rw [if_neg he, if_neg he]
            rfl
      | none =>
          rw [hrec] at h
          have hgf : g ≠ f := by
            intro hg
            have hmm := findInBucket_mem h
            rw [← hg] at hmm
            exact hnd.1 hmm
          rw [removeFromBucket, remove_mission_eq_none hrec, ih hnd.2 h,
            removeSpecInBucket_cons_ne hgf]

theorem removeSpecRegistry_cons_eq {u : String} {b : Bucket} {rest : Registry}
    {t f : String} {r : MissionData} {mission_id : Int} (hu : u = t) :
    removeSpecRegistry ((u, b) :: rest) t f r mission_id =
      (if (removeSpecInBucket b f r mission_id).isEmpty then ([] : Registry)
       else [(u, removeSpecInBucket b f r mission_id)]) ++
        removeSpecRegistry rest t f r mission_id := by
  subst hu
  rw [removeSpecRegistry, List.filterMap_cons]
  by_cases he : (removeSpecInBucket b f r mission_id).isEmpty
  · rw [if_pos (show (u, b).1 = u from rfl), if_pos he, if_pos he]
    rfl
  · rw [if_pos (show (u, b).1 = u from rfl), if_neg he, if_neg he]
    rfl

theorem removeSpecRegistry_cons_ne {u : String} {b : Bucket} {rest : Registry}
    {t f : String} {r : MissionData} {mission_id : Int} (hu : u ≠ t) :
    removeSpecRegistry ((u, b) :: rest) t f r mission_id =
      (u, b) :: removeSpecRegistry rest t f r mission_id := by
  rw [removeSpecRegistry, List.filterMap_cons, if_neg hu]
  rfl

theorem removeSpecRegistry_not_mem {reg : Registry} {t f : String} {r : MissionData}
    {mission_id : Int} (h : ∀ ub ∈ reg, ub.1 ≠ t) :
    removeSpecRegistry reg t f r mission_id = reg := by
  induction reg with
  | nil => rfl
  | cons hd rest ih =>
      obtain ⟨u, b⟩ := hd
      rw [removeSpecRegistry_cons_ne (h (u, b) (List.mem_cons_self _ _))]
      rw [ih (fun x hx => h x (List.mem_cons_of_mem _ hx))]

theorem findInRegistry_mem {reg : Registry} {mission_id : Int} {t f : String}
    {r : MissionData} (h : findInRegistry reg mission_id = some (t, f, r)) :
    t ∈ reg.map Prod.fst := by
  induction reg with
  | nil => cases h
  | cons hd rest ih =>
      obtain ⟨u, b⟩ := hd
      rw [findInRegistry] at h
      cases hfb : findInBucket b mission_id with
      | some p =>
          rw [hfb] at h
          injection h with h
          have hu : u = t := congrArg Prod.fst h
          rw [List.map_cons, hu]
          exact List.mem_cons_self _ _
      | none =>
          rw [hfb] at h
          rw [List.map_cons]
          exact List.mem_cons_of_mem _ (ih h)

/-- Claim C2: whenever the registry holds a record with the requested
`missionId` — located in iteration order as target faction `t`, issuing
faction `f`, first matching record `r` — the source removal routine succeeds
(the Python `True` return) and produces exactly the state the claim
describes: the first matching record erased, `r`'s three fields subtracted
from its ledger's aggregates, the ledger dropped if left empty, and the
bucket dropped if then empty. -/
theorem removeMissionById_eq_spec {reg : Registry} {mission_id : Int} {t f : String}
    {r : MissionData} (hwf : registryKeysOk reg)
    (hfind : findInRegistry reg mission_id = some (t, f, r)) :
    removeMissionById reg mission_id = some (removeSpecRegistry reg t f r mission_id) := by
  induction reg with
  | nil => cases hfind
  | cons hd rest ih =>
      obtain ⟨u, b⟩ := hd
      obtain ⟨hnd, hbk⟩ := hwf
      rw [List.map_cons, List.nodup_cons] at hnd
      rw [findInRegistry] at hfind
      cases hfb : findInBucket b mission_id with
      | some p =>
          obtain ⟨f₀, m⟩ := p
          rw [hfb] at hfind
          injection hfind with hfind
          have hu : u = t := congrArg Prod.fst hfind
          have hfr : ((f₀, m) : String × MissionData) = (f, r) :=
            congrArg Prod.snd hfind
          have hf : f₀ = f := congrArg Prod.fst hfr
          have hr : m = r := congrArg Prod.snd hfr
          subst hu
          subst hf
          subst hr
          have hbnd : (b.map Prod.fst).Nodup := hbk (u, b) (List.mem_cons_self _ _)
          have hrest : ∀ ub ∈ rest, ub.1 ≠ u := by
            intro ub hmem heq
            have hmm : ub.1 ∈ List.map Prod.fst rest := List.mem_map_of_mem Prod.fst hmem
            rw [heq] at hmm
            exact hnd.1 hmm
          rw [removeMissionById, removeFromBucket_eq_spec hbnd hfb]
          show some (if (removeSpecInBucket b f₀ m mission_id).isEmpty = true then rest
              else (u, removeSpecInBucket b f₀ m mission_id) :: rest) = _
          rw [removeSpecRegistry_cons_eq rfl, removeSpecRegistry_not_mem hrest]
          by_cases he : (removeSpecInBucket b f₀ m mission_id).isEmpty
          · rw [if_pos he, if_pos he]
            rfl
          · rw [if_neg he, if_neg he]
            rfl
      | none =>
          rw [hfb] at hfind
          have hut : u ≠ t := by
            intro hu
            have hmm := findInRegistry_mem hfind
            rw [← hu] at hmm
            exact hnd.1 hmm
          have hih := ih ⟨hnd.2, fun tb htb => hbk tb (List.mem_cons_of_mem _ htb)⟩ hfind
          rw [removeMissionById, removeFromBucket_eq_none hfb, hih,
            removeSpecRegistry_cons_ne hut]

/-- Record used by the C2 witness. -/
def c2Record : MissionData :=
  MissionData.mk 7 "Mission_Massacre_C" "Massacre Z" "F" "T" 3 2 10 "" false "" "" ""

/-- One-bucket, one-ledger, one-record registry for the C2 witness. -/
def c2Registry : Registry :=
  [("T", [("F", FactionMissions.mk "F" [("Massacre Z", c2Record)] 3 2 10)])]

/-- Witness for C2: removing the only record by its mission id succeeds and
yields exactly the claim-side result (here: the empty registry, since ledger
and bucket are both emptied). -/
theorem removeMissionById_eq_spec_witness :
    registryKeysOk c2Registry ∧
    findInRegistry c2Registry 7 = some ("T", "F", c2Record) ∧
    removeMissionById c2Registry 7 = some (removeSpecRegistry c2Registry "T" "F" c2Record 7) :=
  ⟨by decide, by decide, removeMissionById_eq_spec (by decide) (by decide)⟩

/-! ### C7: the end-to-end scenario -/

/-- First accepted massacre mission of the E2E scenario. -/
def e2e1 : EventData :=
  { event := some "MissionAccepted", Name := some "Mission_Massacre_RANK_name",
    LocalisedName := some "Massacre A", Faction := some "Military Gamers",
    TargetFaction := some "Mizete Jet Society", KillCount := some 30,
    Reward := some 40561668, MissionID := some 101 }

/-- Second accepted massacre mission of the E2E scenario. -/
def e2e2 : EventData :=
  { event := some "MissionAccepted", Name := some "Mission_Massacre_RANK_name",
    LocalisedName := some "Massacre B", Faction := some "Gatorma Labour",
    TargetFaction := some "Mizete Jet Society", KillCount := some 45,
    Reward := some 16295619, MissionID := some 102 }

/-- Third accepted massacre mission of the E2E scenario. -/
def e2e3 : EventData :=
  { event := some "MissionAccepted", Name := some "Mission_Massacre_RANK_name",
    LocalisedName := some "Massacre C", Faction := some "Military Gamers",
    TargetFaction := some "Brothers of Nijoten", KillCount := some 25,
    Reward := some 30106172, MissionID := some 103 }

/-- The registry after processing the three E2E events from the fresh stack. -/
def e2eRegistry : Registry :=
  (processEvent e2e3 (processEvent e2e2 (processEvent e2e1 []).2).2).2

/-- Claim C7: after the three accepted massacre missions, the registry holds
exactly two target-faction buckets (with two and one issuing factions), the
kill ratios are `1/2` for Mizete Jet Society and `1.0` for Brothers of
Nijoten, and the summary's total reward is `86963459`. -/
theorem e2e_scenario :
    e2eRegistry.length = 2 ∧
    e2eRegistry.map (fun tb => (tb.1, tb.2.length)) =
      [("Mizete Jet Society", 2), ("Brothers of Nijoten", 1)] ∧
    getKillRatios e2eRegistry =
      Except.ok [("Mizete Jet Society", 1 / 2), ("Brothers of Nijoten", 1)] ∧
    (getSummary e2eRegistry).total_reward = 86963459 := by
  refine ⟨by decide, by decide, ?_, by decide⟩
  have h : e2eRegistry = [("Mizete Jet Society",
      [("Military Gamers", FactionMissions.mk "Military Gamers"
          [("Massacre A", MissionData.ofEvent e2e1)] 30 30 40561668),
       ("Gatorma Labour", FactionMissions.mk "Gatorma Labour"
          [("Massacre B", MissionData.ofEvent e2e2)] 45 45 16295619)]),
     ("Brothers of Nijoten",
      [("Military Gamers", FactionMissions.mk "Military Gamers"
          [("Massacre C", MissionData.ofEvent e2e3)] 25 25 30106172)])] := by
    decide
  rw [h]
  norm_num [getKillRatios, calculateRatios, calculateTargetFactionRatio,
    calculateFactionRemainingKills, sortByDesc, insertByDesc, computeKillRatio,
    pymax, pydiv, Except.bind, MissionData.ofEvent, e2e1, e2e2, e2e3]
